import Mathlib

/-!
# CronTab controller: event adapter, worker loop and Run

A shallow embedding of `controller.go` (and of the call of `Run` in `main.go`).

* Go `interface{}` values are closed sums listing the dynamic types the code
  distinguishes (`Obj` for notification objects, `Item` for queue items).
* Pointers are non-nil; a Go `error` is an `Option Err` (`none` is `nil`), and
  every `fmt.Errorf` site is a constructor of `Err` carrying its arguments.
* Calls into the work queue, the lister and the error reporter are recorded, in
  program order, in a trace of `Event`s.  `klog` lines are not recorded.
* The work queue, the lister and the cache-sync barrier are collaborators: the
  result of a blocking `Get`, the lister and the barrier result are inputs.
* The interleaving of `Run` with its worker goroutines is a labelled step
  function on a `Sys` state (second half of the definitions).
-/

namespace CronTabController

/-! ## Data model -/

deriving instance DecidableEq for Except

/-- The fields of a `*crdv1beta1.CronTab` that the controller reads. -/
structure CronTab where
  Namespace : String
  Name : String
  ResourceVersion : String
  deriving DecidableEq, Repr

/-- Dynamic types of the `interface{}` handed to the event handlers. -/
inductive Obj where
  /-- A `*crdv1beta1.CronTab`. -/
  | cronTab (c : CronTab)
  /-- A `cache.ExplicitKey`. -/
  | explicitKey (key : String)
  /-- A `cache.DeletedFinalStateUnknown` with fields `Key` and `Obj`. -/
  | tombstone (key : String) (last : Option CronTab)
  /-- Any other value: it carries no object metadata. -/
  | other (tag : Nat)
  deriving DecidableEq, Repr

/-- Dynamic types of the `interface{}` stored in the work queue. -/
inductive Item where
  /-- A Go `string`. -/
  | str (s : String)
  /-- Any value that is not a string; tag `0` is the nil interface. -/
  | other (tag : Nat)
  deriving DecidableEq, Repr

/-- Error values, one constructor per site that creates one. -/
inductive Err where
  /-- The error of `meta.Accessor` wrapped by `MetaNamespaceKeyFunc`. -/
  | objectHasNoMeta
  /-- The error of `SplitMetaNamespaceKey`: `unexpected key format`. -/
  | unexpectedKeyFormat (key : String)
  /-- Line 95: `expected string in workqueue but got ...`. -/
  | expectedString (obj : Item)
  /-- Line 100: `error syncing ...`, wrapping the text of the handler error. -/
  | errorSyncing (key : String) (cause : Err)
  /-- Line 121: `invalid resource key: ...`. -/
  | invalidResourceKey (key : String)
  /-- Line 133: `failed to get crontab by: ...`. -/
  | failedToGet (ns name : String)
  /-- An error of the lister that is not a not-found error. -/
  | lister (msg : String)
  /-- Line 58: `failed to wait for cache to sync`. -/
  | failedToSync
  deriving DecidableEq, Repr

/-- Result of `c.informer.Lister().CronTabs(namespace).Get(name)`:
the object, a not-found error, or another error. -/
inductive Lookup where
  | found (c : CronTab)
  | notFound
  | failed (msg : String)
  deriving DecidableEq, Repr

/-- The cache lister, by namespace and name. -/
abbrev Lister := String → String → Lookup

/-- Calls recorded in a trace, in program order. -/
inductive Event where
  | Get
  | Done (obj : Item)
  | Forget (obj : Item)
  | AddRateLimited (obj : Item)
  | ShutDown
  /-- Entry into `syncHandler key`. -/
  | syncHandler (key : String)
  /-- A call of `runtime.HandleError`. -/
  | HandleError (e : Err)
  deriving DecidableEq, Repr

/-- The events that are operations on the work queue. -/
def Event.isQueueOp : Event → Bool
  | .Get => true
  | .Done _ => true
  | .Forget _ => true
  | .AddRateLimited _ => true
  | .ShutDown => true
  | .syncHandler _ => false
  | .HandleError _ => false

/-- The queue operations of a trace, in order. -/
def queueOps (t : List Event) : List Event :=
  t.filter Event.isQueueOp

/-- The errors handed to `runtime.HandleError` in a trace, in order. -/
def reported : List Event → List Err
  | [] => []
  | .HandleError e :: t => e :: reported t
  | _ :: t => reported t

/-- The items `Done` was called with in a trace, in order. -/
def doneCalls : List Event → List Item
  | [] => []
  | .Done o :: t => o :: doneCalls t
  | _ :: t => doneCalls t

/-- The keys `syncHandler` was invoked with in a trace, in order. -/
def syncCalls : List Event → List String
  | [] => []
  | .syncHandler k :: t => k :: syncCalls t
  | _ :: t => syncCalls t

/-- The per-item attempt counter of the rate limiter after a trace:
`AddRateLimited` increments it, `Forget` resets it, nothing else touches it. -/
def numRequeues (obj : Item) : List Event → Nat → Nat
  | [], n => n
  | .AddRateLimited o :: t, n => numRequeues obj t (if o = obj then n + 1 else n)
  | .Forget o :: t, n => numRequeues obj t (if o = obj then 0 else n)
  | _ :: t, n => numRequeues obj t n

/-! ## Key functions of `k8s.io/client-go/tools/cache` -/

/-- The pieces of a key between slashes, as `strings.Split(key, "/")`. -/
def splitSlash : List Char → List (List Char)
  | [] => [[]]
  | c :: cs =>
    if c = '/' then [] :: splitSlash cs
    else
      match splitSlash cs with
      | [] => [[c]]
      | p :: ps => (c :: p) :: ps

/-- The function `cache.SplitMetaNamespaceKey`: one part is a bare name, two parts
are namespace and name, anything else is an error. -/
def SplitMetaNamespaceKey (key : String) : Except Err (String × String) :=
  match splitSlash key.data with
  | [name] => .ok ("", String.mk name)
  | [ns, name] => .ok (String.mk ns, String.mk name)
  | _ => .error (.unexpectedKeyFormat key)

/-- The function `cache.MetaNamespaceKeyFunc`: an explicit key is returned as is; an
object with metadata gives `namespace/name`, or `name` when the namespace
is empty; a value without metadata is an error. -/
def MetaNamespaceKeyFunc : Obj → Except Err String
  | .explicitKey key => .ok key
  | .cronTab c =>
    if c.Namespace.length > 0 then .ok (c.Namespace ++ "/" ++ c.Name)
    else .ok c.Name
  | .tombstone _ _ => .error .objectHasNoMeta
  | .other _ => .error .objectHasNoMeta

/-- The function `cache.DeletionHandlingMetaNamespaceKeyFunc`: a tombstone gives its
stored key, anything else goes through `MetaNamespaceKeyFunc`. -/
def DeletionHandlingMetaNamespaceKeyFunc : Obj → Except Err String
  | .tombstone key _ => .ok key
  | obj => MetaNamespaceKeyFunc obj

/-! ## `controller.go`, sequential part -/

/-- The method `Controller.enqueueCronTab` (lines 141-151). -/
def enqueueCronTab (obj : Obj) : List Event :=
  match MetaNamespaceKeyFunc obj with
  | .error err => [.HandleError err]
  | .ok key => [.AddRateLimited (.str key)]

/-- The `AddFunc` field of the handlers (line 33) is `controller.enqueueCronTab`. -/
def AddFunc (obj : Obj) : List Event :=
  enqueueCronTab obj

/-- What the informer hands to a delete handler: the final state of the deleted
object, or a `DeletedFinalStateUnknown` tombstone when that state was missed. -/
def isDeleteNotification : Obj → Bool
  | .cronTab _ => true
  | .tombstone _ _ => true
  | .explicitKey _ => false
  | .other _ => false

/-- The method `Controller.enqueueCronTabForDelete` (lines 153-164). -/
def enqueueCronTabForDelete (obj : Obj) : List Event :=
  match DeletionHandlingMetaNamespaceKeyFunc obj with
  | .error err => [.HandleError err]
  | .ok key => [.AddRateLimited (.str key)]

/-- The `DeleteFunc` field of the handlers (line 44) is
`controller.enqueueCronTabForDelete`. -/
def DeleteFunc (obj : Obj) : List Event :=
  enqueueCronTabForDelete obj

/-- The `UpdateFunc` closure of `NewController` (lines 34-43).  The two type
assertions have no `ok` form: on a value that is not a `*CronTab` they
panic, which is `none`. -/
def UpdateFunc (old new : Obj) : Option (List Event) :=
  match old with
  | .cronTab oldJob =>
    match new with
    | .cronTab newJob =>
      if oldJob.ResourceVersion = newJob.ResourceVersion then some []
      else some (enqueueCronTab new)
    | _ => none
  | _ => none

/-- The method `Controller.syncHandler` (lines 117-139): the returned error and the
trace, which starts with the entry event. -/
def syncHandler (lister : Lister) (key : String) : Option Err × List Event :=
  match SplitMetaNamespaceKey key with
  | .error _ => (none, [.syncHandler key, .HandleError (.invalidResourceKey key)])
  | .ok (namespace_, name) =>
    match lister namespace_ name with
    | .found _ => (none, [.syncHandler key])
    | .notFound => (none, [.syncHandler key])
    | .failed msg =>
      (some (.lister msg), [.syncHandler key, .HandleError (.failedToGet namespace_ name)])

/-- The closure `func(obj interface{}) error` of `processNextWorkItem`
(lines 87-106).  The deferred `Done(obj)` ends the trace on every return. -/
def handleItem (lister : Lister) (obj : Item) : Option Err × List Event :=
  match obj with
  | .other tag =>
    (none, [.Forget (.other tag), .HandleError (.expectedString (.other tag)),
            .Done (.other tag)])
  | .str key =>
    match syncHandler lister key with
    | (some err, t) => (some (.errorSyncing key err), t ++ [.Done (.str key)])
    | (none, t) => (none, t ++ [.Forget (.str key), .Done (.str key)])

/-- The method `Controller.processNextWorkItem` (lines 81-114).  The argument is what
`c.workqueue.Get()` returned: the item and the shutdown flag. -/
def processNextWorkItem (lister : Lister) (got : Item × Bool) : Bool × List Event :=
  if got.2 then (false, [.Get])
  else
    match handleItem lister got.1 with
    | (some err, t) => (true, .Get :: t ++ [.HandleError err])
    | (none, t) => (true, .Get :: t)

/-- The method `Controller.runWorker` (lines 76-79) against the successive results of
`Get`.  The flag says whether the loop ended; when the results run out the
worker is still blocked in `Get`. -/
def runWorker (lister : Lister) : List (Item × Bool) → Bool × List Event
  | [] => (false, [])
  | got :: rest =>
    match processNextWorkItem lister got with
    | (true, t) => ((runWorker lister rest).1, t ++ (runWorker lister rest).2)
    | (false, t) => (true, t)

/-- What `Run` does besides returning, in program order. -/
inductive RunEvent where
  /-- One `go wait.Until(c.runWorker, time.Second, stopCh)`. -/
  | goWorker
  /-- The receive `<-stopCh`, which returns once the stop signal has fired. -/
  | awaitStop
  /-- The deferred `c.workqueue.ShutDown()`. -/
  | ShutDown
  deriving DecidableEq, Repr

/-- The method `Controller.Run` (lines 50-73).  `cacheSynced` is the result of
`cache.WaitForCacheSync(stopCh, HasSynced)`, false when stop fired before the
cache had synced.  Go `int` is `Int`: the loop body runs for `0 ≤ i < threadiness`. -/
def Run (threadiness : Int) (cacheSynced : Bool) : Option Err × List RunEvent :=
  if !cacheSynced then (some .failedToSync, [.ShutDown])
  else (none, List.replicate threadiness.toNat .goWorker ++ [.awaitStop, .ShutDown])

/-! ## The work queue and the goroutines of `Run` -/

/-- State of the work queue (`workqueue.Type`): the pending items in order, the
dirty set, the processing set and the shutdown flag. -/
structure Queue where
  queue : List Item
  dirty : List Item
  processing : List Item
  shuttingDown : Bool
  deriving DecidableEq, Repr

/-- The queue method `Add`: ignored after shutdown and for an item that is already
dirty; an item being processed is only marked dirty. -/
def Queue.Add (q : Queue) (item : Item) : Queue :=
  if q.shuttingDown then q
  else if item ∈ q.dirty then q
  else if item ∈ q.processing then { q with dirty := item :: q.dirty }
  else { q with dirty := item :: q.dirty, queue := q.queue ++ [item] }

/-- The queue method `Get`: the first pending item moves to the processing set; with
nothing pending it reports shutdown once the queue is shut down, and
otherwise the caller stays blocked, which is `none`. -/
def Queue.Get (q : Queue) : Option ((Item × Bool) × Queue) :=
  match q.queue with
  | [] => if q.shuttingDown then some ((.other 0, true), q) else none
  | item :: rest =>
    some ((item, false),
      { q with queue := rest, processing := item :: q.processing,
               dirty := q.dirty.erase item })

/-- The queue method `Done`: the item leaves the processing set and, if it was
marked dirty meanwhile, becomes pending again. -/
def Queue.Done (q : Queue) (item : Item) : Queue :=
  if item ∈ q.dirty then
    { q with processing := q.processing.erase item, queue := q.queue ++ [item] }
  else { q with processing := q.processing.erase item }

/-- The queue method `ShutDown`. -/
def Queue.ShutDown (q : Queue) : Queue :=
  { q with shuttingDown := true }

/-- Effect of one recorded call on the pending and processing sets.  `Forget`
only touches the rate limiter and a rate-limited add becomes an `Add` later,
when its delay has elapsed. -/
def Queue.apply (q : Queue) : Event → Queue
  | .Done obj => q.Done obj
  | .ShutDown => q.ShutDown
  | _ => q

/-- Where the goroutine executing `Run` stands. -/
inductive RunPc where
  /-- In `cache.WaitForCacheSync` (line 57). -/
  | barrier
  /-- At the test `i < threadiness` of the loop (line 63). -/
  | spawn (i : Int)
  /-- At the receive `<-stopCh` (line 69). -/
  | awaitStop
  /-- After the return, with the returned error. -/
  | returned (err : Option Err)
  deriving DecidableEq, Repr

/-- Where a goroutine started by `go wait.Until(c.runWorker, time.Second, stopCh)`
stands. -/
inductive WorkerPc where
  /-- In `wait.Until`, about to test `stopCh` before calling `runWorker`. -/
  | untilCheck
  /-- In `runWorker`, about to call `Get`. -/
  | get
  /-- In the closure of `processNextWorkItem`: `Get` has returned `obj`, the
  call of `syncHandler` is in flight and the deferred `Done` has not run. -/
  | handling (obj : Item)
  /-- Back in `wait.Until` after `runWorker` returned: waiting for the period to
  elapse or for `stopCh`. -/
  | untilWait
  /-- The goroutine has ended. -/
  | exited
  deriving DecidableEq, Repr

/-- The controller, its queue and its goroutines. -/
structure Sys where
  /-- The channel `stopCh` is closed. -/
  stop : Bool
  /-- What `HasSynced` of the informer answers. -/
  hasSynced : Bool
  run : RunPc
  workers : List WorkerPc
  wq : Queue
  /-- The calls made so far by all goroutines, in the order of their moves; the
  calls of the closure of `processNextWorkItem` are appended by the move that
  completes it. -/
  trace : List Event
  deriving DecidableEq, Repr

/-- Who moves next. -/
inductive Action where
  /-- The stop signal fires. -/
  | closeStop
  /-- The informer finishes its initial listing. -/
  | cacheSync
  /-- The queue makes an added item visible. -/
  | add (item : Item)
  /-- The goroutine of `Run` executes up to its next blocking point or spawn. -/
  | run
  /-- The barrier in `Run` observes that `stopCh` is closed and gives up. -/
  | barrierStop
  /-- Worker `i` executes up to its next blocking point. -/
  | worker (i : Nat)
  deriving DecidableEq, Repr

/-- One move of the goroutine of `Run`; `none` when it is blocked or has
returned.  It leaves the barrier this way when `HasSynced` answers true; the
deferred `ShutDown` runs at the return. -/
def stepRun (threadiness : Int) (s : Sys) : Option Sys :=
  match s.run with
  | .barrier => if s.hasSynced then some { s with run := .spawn 0 } else none
  | .spawn i =>
    if i < threadiness then
      some { s with run := .spawn (i + 1), workers := s.workers ++ [.untilCheck] }
    else some { s with run := .awaitStop }
  | .awaitStop =>
    if s.stop then
      some { s with run := .returned none, wq := s.wq.ShutDown,
                    trace := s.trace ++ [.ShutDown] }
    else none
  | .returned _ => none

/-- The other way out of the barrier: `WaitForCacheSync` sees `stopCh` closed and
answers false, and `Run` returns the error after the deferred `ShutDown`.  When
the cache has synced and `stopCh` is closed both ways are open, as in the
`select` of the poll loop. -/
def stepBarrierStop (s : Sys) : Option Sys :=
  match s.run with
  | .barrier =>
    if s.stop then
      some { s with run := .returned (some .failedToSync), wq := s.wq.ShutDown,
                    trace := s.trace ++ [.ShutDown] }
    else none
  | _ => none

/-- One move of a worker goroutine in state `pc`: its next state, the queue and
the trace; `none` when it is blocked in `Get` or has ended. -/
def stepWorker (lister : Lister) (s : Sys) (pc : WorkerPc) :
    Option (WorkerPc × Queue × List Event) :=
  match pc with
  | .untilCheck =>
    if s.stop then some (.exited, s.wq, s.trace) else some (.get, s.wq, s.trace)
  | .get =>
    match s.wq.Get with
    | none => none
    | some ((_, true), q) => some (.untilWait, q, s.trace ++ [.Get])
    | some ((obj, false), q) => some (.handling obj, q, s.trace ++ [.Get])
  | .handling obj =>
    match handleItem lister obj with
    | (some err, t) =>
      some (.get, t.foldl Queue.apply s.wq, s.trace ++ t ++ [.HandleError err])
    | (none, t) => some (.get, t.foldl Queue.apply s.wq, s.trace ++ t)
  | .untilWait =>
    if s.stop then some (.exited, s.wq, s.trace) else some (.untilCheck, s.wq, s.trace)
  | .exited => none

/-- One move of the system under the given action; `none` when the action is
not enabled. -/
def step (lister : Lister) (threadiness : Int) (a : Action) (s : Sys) : Option Sys :=
  match a with
  | .closeStop => if s.stop then none else some { s with stop := true }
  | .cacheSync => if s.hasSynced then none else some { s with hasSynced := true }
  | .add item => some { s with wq := s.wq.Add item }
  | .run => stepRun threadiness s
  | .barrierStop => stepBarrierStop s
  | .worker i =>
    match s.workers[i]? with
    | none => none
    | some pc =>
      match stepWorker lister s pc with
      | none => none
      | some (pc', q, t) =>
        some { s with workers := s.workers.set i pc', wq := q, trace := t }

/-- A schedule, executed from left to right; `none` if some action is not
enabled when its turn comes. -/
def exec (lister : Lister) (threadiness : Int) : List Action → Sys → Option Sys
  | [], s => some s
  | a :: as, s =>
    match step lister threadiness a s with
    | none => none
    | some s' => exec lister threadiness as s'

/-- The state in which `Run` is called: the handlers have already enqueued
`pending`, nothing is being processed, no worker exists. -/
def Sys.init (pending : List Item) : Sys :=
  { stop := false, hasSynced := false, run := .barrier, workers := [],
    wq := { queue := pending, dirty := pending, processing := [], shuttingDown := false },
    trace := [] }

/-- A lister whose cache has no objects. -/
def emptyLister : Lister :=
  fun _ _ => .notFound

/-- A lister whose every lookup fails with an error other than not-found. -/
def brokenLister : Lister :=
  fun _ _ => .failed "cache unavailable"

/-- What holds of the workers at each point of `Run`: none exists and the
handler has not been invoked up to the barrier and after a failed one;
the loop at index `i` has started `i` of them; after the loop there are as many
as the loop started; a nil return comes after the stop signal. -/
def RunInv (threadiness : Int) (s : Sys) : Prop :=
  match s.run with
  | .barrier => s.workers = [] ∧ syncCalls s.trace = []
  | .spawn i => 0 ≤ i ∧ (s.workers.length : Int) = i ∧ (i ≤ threadiness ∨ i = 0)
  | .awaitStop => s.workers.length = threadiness.toNat
  | .returned none => s.workers.length = threadiness.toNat ∧ s.stop = true
  | .returned (some e) =>
    e = .failedToSync ∧ s.workers = [] ∧ syncCalls s.trace = [] ∧ s.stop = true

/-- The state of `Run(2, stopCh)` with `ns/a` enqueued, once both workers are
started, the first one has taken `ns/a` from the queue and is in its handler,
and the stop signal has fired. -/
def Sys.stoppedMidSync : Sys :=
  { stop := true, hasSynced := true, run := .awaitStop,
    workers := [.handling (.str "ns/a"), .untilCheck],
    wq := { queue := [], dirty := [], processing := [.str "ns/a"], shuttingDown := false },
    trace := [.Get] }

/-! ## Helper lemmas -/

theorem splitSlash_noSlash (b : List Char) (hb : '/' ∉ b) : splitSlash b = [b] := by
  induction b with
  | nil => rfl
  | cons c cs ih =>
    simp only [List.mem_cons, not_or] at hb
    have hc : c ≠ '/' := fun h => hb.1 h.symm
    simp [splitSlash, hc, ih hb.2]

theorem splitSlash_append (a b : List Char) (ha : '/' ∉ a) :
    splitSlash (a ++ '/' :: b) = a :: splitSlash b := by
  induction a with
  | nil => simp [splitSlash]
  | cons c cs ih =>
    simp only [List.mem_cons, not_or] at ha
    have hc : c ≠ '/' := fun h => ha.1 h.symm
    simp [splitSlash, hc, ih ha.2]

/-- A key written `ns/name`, with no slash inside either part, splits back into
its two parts. -/
theorem SplitMetaNamespaceKey_join (ns name : String) (hns : '/' ∉ ns.data)
    (hname : '/' ∉ name.data) :
    SplitMetaNamespaceKey (ns ++ "/" ++ name) = .ok (ns, name) := by
  have h : (ns ++ "/" ++ name).data = ns.data ++ '/' :: name.data := by
    simp [String.data_append]
  simp [SplitMetaNamespaceKey, h, splitSlash_append _ _ hns, splitSlash_noSlash _ hname]

theorem length_pos_iff_ne_empty (s : String) : s.length > 0 ↔ s ≠ "" := by
  rw [String.length]
  constructor
  · intro h he; subst he; simp at h
  · intro h
    cases s with
    | mk d =>
      cases d with
      | nil => exact absurd rfl h
      | cons a l => simp

/-- The key of a CronTab: `namespace/name`, or the bare name when the namespace
is empty. -/
theorem MetaNamespaceKeyFunc_cronTab (c : CronTab) :
    MetaNamespaceKeyFunc (.cronTab c) =
      .ok (if c.Namespace = "" then c.Name else c.Namespace ++ "/" ++ c.Name) := by
  by_cases h : c.Namespace = ""
  · simp [MetaNamespaceKeyFunc, h]
  · have hpos := (length_pos_iff_ne_empty c.Namespace).2 h
    simp [MetaNamespaceKeyFunc, h, hpos]

/-- The three shapes of a `syncHandler` result. -/
theorem syncHandler_cases (lister : Lister) (key : String) :
    syncHandler lister key = (none, [.syncHandler key]) ∨
    syncHandler lister key =
      (none, [.syncHandler key, .HandleError (.invalidResourceKey key)]) ∨
    ∃ ns name msg, SplitMetaNamespaceKey key = .ok (ns, name) ∧
      lister ns name = .failed msg ∧
      syncHandler lister key =
        (some (.lister msg), [.syncHandler key, .HandleError (.failedToGet ns name)]) := by
  unfold syncHandler
  cases hs : SplitMetaNamespaceKey key with
  | error e => simp
  | ok p =>
    obtain ⟨ns, name⟩ := p
    cases hl : lister ns name with
    | found c => simp [hl]
    | notFound => simp [hl]
    | failed msg =>
      refine Or.inr (Or.inr ⟨ns, name, msg, ?_⟩)
      simp [hl]

/-- The handler itself performs no queue operation and never calls `Done`. -/
theorem syncHandler_trace (lister : Lister) (key : String) :
    queueOps (syncHandler lister key).2 = [] ∧
    doneCalls (syncHandler lister key).2 = [] ∧
    syncCalls (syncHandler lister key).2 = [key] := by
  rcases syncHandler_cases lister key with h | h | ⟨ns, name, msg, -, -, h⟩ <;>
    simp [h, queueOps, doneCalls, syncCalls, Event.isQueueOp]

theorem queueOps_append (s t : List Event) : queueOps (s ++ t) = queueOps s ++ queueOps t := by
  simp [queueOps]

theorem doneCalls_append (s t : List Event) :
    doneCalls (s ++ t) = doneCalls s ++ doneCalls t := by
  induction s with
  | nil => rfl
  | cons e s ih => cases e <;> simp [doneCalls, ih]

theorem syncCalls_append (s t : List Event) :
    syncCalls (s ++ t) = syncCalls s ++ syncCalls t := by
  induction s with
  | nil => rfl
  | cons e s ih => cases e <;> simp [syncCalls, ih]

theorem numRequeues_append (obj : Item) (s t : List Event) (n : Nat) :
    numRequeues obj (s ++ t) n = numRequeues obj t (numRequeues obj s n) := by
  induction s generalizing n with
  | nil => rfl
  | cons e s ih => cases e <;> simp [numRequeues, ih]

/-- The handler leaves every attempt counter alone. -/
theorem numRequeues_syncHandler (lister : Lister) (key : String) (obj : Item) (n : Nat) :
    numRequeues obj (syncHandler lister key).2 n = n := by
  rcases syncHandler_cases lister key with h | h | ⟨ns, name, msg, -, -, h⟩ <;>
    simp [h, numRequeues]

/-- The trace of `processNextWorkItem` on a string key whose handler fails. -/
theorem processNextWorkItem_of_error (lister : Lister) (key : String) (err : Err)
    (t : List Event) (h : syncHandler lister key = (some err, t)) :
    processNextWorkItem lister (.str key, false) =
      (true, .Get :: t ++ [.Done (.str key), .HandleError (.errorSyncing key err)]) := by
  simp [processNextWorkItem, handleItem, h]

/-- The trace of `processNextWorkItem` on a string key whose handler succeeds. -/
theorem processNextWorkItem_of_ok (lister : Lister) (key : String)
    (t : List Event) (h : syncHandler lister key = (none, t)) :
    processNextWorkItem lister (.str key, false) =
      (true, .Get :: t ++ [.Forget (.str key), .Done (.str key)]) := by
  simp [processNextWorkItem, handleItem, h]

/-- One turn of the loop of `runWorker` when `processNextWorkItem` returns true. -/
theorem runWorker_of_continue (lister : Lister) (got : Item × Bool)
    (rest : List (Item × Bool)) (h : (processNextWorkItem lister got).1 = true) :
    runWorker lister (got :: rest) =
      ((runWorker lister rest).1,
        (processNextWorkItem lister got).2 ++ (runWorker lister rest).2) := by
  have h2 : processNextWorkItem lister got = (true, (processNextWorkItem lister got).2) := by
    rw [← h]
  rw [runWorker, h2]

/-- A call of `processNextWorkItem` that got an item calls `Done` once, for it. -/
theorem doneCalls_processNextWorkItem (lister : Lister) (obj : Item) :
    doneCalls (processNextWorkItem lister (obj, false)).2 = [obj] := by
  cases obj with
  | other tag => simp [processNextWorkItem, handleItem, doneCalls]
  | str key =>
    rcases syncHandler_cases lister key with h | h | ⟨ns, name, msg, -, -, h⟩
    · rw [processNextWorkItem_of_ok lister key _ h]; simp [doneCalls]
    · rw [processNextWorkItem_of_ok lister key _ h]; simp [doneCalls]
    · rw [processNextWorkItem_of_error lister key _ _ h]; simp [doneCalls]

/-- The invariant holds when `Run` is called. -/
theorem RunInv_init (threadiness : Int) (pending : List Item) :
    RunInv threadiness (Sys.init pending) := by
  simp [RunInv, Sys.init, syncCalls]

/-- A move of `Run` keeps the invariant. -/
theorem stepRun_RunInv (threadiness : Int) (s s' : Sys) (hinv : RunInv threadiness s)
    (h : stepRun threadiness s = some s') : RunInv threadiness s' := by
  unfold stepRun at h
  cases hr : s.run with
  | barrier =>
    simp only [hr] at h
    simp only [RunInv, hr] at hinv
    split_ifs at h with h1
    cases h
    simp [RunInv, hinv.1]
  | spawn i =>
    simp only [hr] at h
    simp only [RunInv, hr] at hinv
    split_ifs at h with h1
    · cases h
      simp only [RunInv, List.length_append, List.length_singleton, Nat.cast_add, Nat.cast_one]
      omega
    · cases h
      simp only [RunInv]
      omega
  | awaitStop =>
    simp only [hr] at h
    simp only [RunInv, hr] at hinv
    split_ifs at h with h1
    cases h
    simp [RunInv, hinv, h1]
  | returned e =>
    simp [hr] at h

/-- Giving up at the barrier keeps the invariant. -/
theorem stepBarrierStop_RunInv (threadiness : Int) (s s' : Sys) (hinv : RunInv threadiness s)
    (h : stepBarrierStop s = some s') : RunInv threadiness s' := by
  unfold stepBarrierStop at h
  cases hr : s.run with
  | barrier =>
    simp only [hr] at h
    simp only [RunInv, hr] at hinv
    split_ifs at h with h1
    cases h
    simp [RunInv, hinv.1, syncCalls_append, hinv.2, syncCalls, h1]
  | spawn i => simp [hr] at h
  | awaitStop => simp [hr] at h
  | returned e => simp [hr] at h

/-- A move of the system keeps the invariant. -/
theorem step_RunInv (lister : Lister) (threadiness : Int) (a : Action) (s s' : Sys)
    (hinv : RunInv threadiness s) (h : step lister threadiness a s = some s') :
    RunInv threadiness s' := by
  cases a with
  | closeStop =>
    simp only [step] at h
    split_ifs at h with h1
    cases h
    unfold RunInv at hinv ⊢
    dsimp only
    split at hinv <;> simp_all
  | cacheSync =>
    simp only [step] at h
    split_ifs at h with h1
    cases h
    exact hinv
  | add item =>
    simp only [step] at h
    cases h
    exact hinv
  | run => exact stepRun_RunInv threadiness s s' hinv h
  | barrierStop => exact stepBarrierStop_RunInv threadiness s s' hinv h
  | worker i =>
    simp only [step] at h
    cases hg : s.workers[i]? with
    | none => simp [hg] at h
    | some pc =>
      have hne : s.workers ≠ [] := by
        intro he
        rw [he] at hg
        simp at hg
      simp only [hg] at h
      cases hw : stepWorker lister s pc with
      | none => simp [hw] at h
      | some r =>
        obtain ⟨pc', q, t⟩ := r
        simp only [hw] at h
        cases h
        unfold RunInv at hinv ⊢
        dsimp only
        split at hinv
        · exact absurd hinv.1 hne
        · simpa using hinv
        · simpa using hinv
        · simpa using hinv
        · exact absurd hinv.2.1 hne

/-- Every schedule keeps the invariant. -/
theorem exec_RunInv (lister : Lister) (threadiness : Int) (sched : List Action)
    (s s' : Sys) (hinv : RunInv threadiness s)
    (h : exec lister threadiness sched s = some s') : RunInv threadiness s' := by
  induction sched generalizing s with
  | nil =>
    simp only [exec, Option.some.injEq] at h
    exact h ▸ hinv
  | cons a as ih =>
    simp only [exec] at h
    cases hs : step lister threadiness a s with
    | none => simp [hs] at h
    | some s1 =>
      simp only [hs] at h
      exact ih s1 (step_RunInv lister threadiness a s s1 hinv hs) h

/-- The only effect of the closure of `processNextWorkItem` on the pending and
processing sets is its deferred `Done`. -/
theorem foldl_apply_handleItem (lister : Lister) (obj : Item) (q : Queue) :
    (handleItem lister obj).2.foldl Queue.apply q = q.Done obj := by
  cases obj with
  | other tag => simp [handleItem, Queue.apply]
  | str key =>
    rcases syncHandler_cases lister key with h | h | ⟨ns, name, msg, -, -, h⟩ <;>
      simp [handleItem, h, Queue.apply]

/-- An item that is neither pending nor dirty stays so under `Done`. -/
theorem Queue.Done_absent (q : Queue) (obj item : Item)
    (hq : obj ∉ q.queue) (hd : obj ∉ q.dirty) :
    obj ∉ (q.Done item).queue ∧ obj ∉ (q.Done item).dirty := by
  unfold Queue.Done
  split_ifs with h1
  · refine ⟨?_, hd⟩
    simp only [List.mem_append, List.mem_singleton, not_or]
    exact ⟨hq, fun he => hd (he ▸ h1)⟩
  · exact ⟨hq, hd⟩

/-- An item that is neither pending nor dirty stays so when another item is
added. -/
theorem Queue.Add_absent (q : Queue) (obj item : Item) (hne : item ≠ obj)
    (hq : obj ∉ q.queue) (hd : obj ∉ q.dirty) :
    obj ∉ (q.Add item).queue ∧ obj ∉ (q.Add item).dirty := by
  have hne2 : obj ≠ item := fun he => hne he.symm
  unfold Queue.Add
  split_ifs <;> simp [hq, hd, hne2]

/-- A move of a worker hands out only what is pending: an item that is neither
pending nor dirty stays so, and the worker does not end up handling it. -/
theorem stepWorker_absent (lister : Lister) (s : Sys) (pc pc' : WorkerPc) (q : Queue)
    (t : List Event) (obj : Item) (hq : obj ∉ s.wq.queue) (hd : obj ∉ s.wq.dirty)
    (h : stepWorker lister s pc = some (pc', q, t)) :
    obj ∉ q.queue ∧ obj ∉ q.dirty ∧ pc' ≠ .handling obj := by
  cases pc with
  | untilCheck =>
    simp only [stepWorker] at h
    split_ifs at h <;> cases h <;> exact ⟨hq, hd, by simp⟩
  | untilWait =>
    simp only [stepWorker] at h
    split_ifs at h <;> cases h <;> exact ⟨hq, hd, by simp⟩
  | exited => simp [stepWorker] at h
  | get =>
    simp only [stepWorker, Queue.Get] at h
    cases hqq : s.wq.queue with
    | nil =>
      simp only [hqq] at h
      split_ifs at h
      cases h
      exact ⟨hq, hd, by simp⟩
    | cons item rest =>
      simp only [hqq] at h
      cases h
      rw [hqq] at hq
      simp only [List.mem_cons, not_or] at hq
      refine ⟨hq.2, fun hm => hd (List.mem_of_mem_erase hm), ?_⟩
      intro he
      cases he
      exact hq.1 rfl
  | handling item =>
    simp only [stepWorker] at h
    have hf := foldl_apply_handleItem lister item s.wq
    have hdone := Queue.Done_absent s.wq obj item hq hd
    cases hh : handleItem lister item with
    | mk err tr =>
      rw [hh] at hf
      simp only at hf
      cases err with
      | none =>
        simp only [hh] at h
        cases h
        rw [hf]
        exact ⟨hdone.1, hdone.2, by simp⟩
      | some e =>
        simp only [hh] at h
        cases h
        rw [hf]
        exact ⟨hdone.1, hdone.2, by simp⟩

/-- Without an `Add` of it, an item that is neither pending nor dirty stays so
in every move, and no move hands it to a worker. -/
theorem step_absent (lister : Lister) (threadiness : Int) (a : Action) (s s' : Sys)
    (obj : Item) (ha : a ≠ .add obj) (hq : obj ∉ s.wq.queue) (hd : obj ∉ s.wq.dirty)
    (h : step lister threadiness a s = some s') :
    obj ∉ s'.wq.queue ∧ obj ∉ s'.wq.dirty ∧
    ∀ j : Nat, s'.workers[j]? = some (WorkerPc.handling obj) →
      s.workers[j]? = some (WorkerPc.handling obj) := by
  cases a with
  | closeStop =>
    simp only [step] at h
    split_ifs at h
    cases h
    exact ⟨hq, hd, fun _ hj => hj⟩
  | cacheSync =>
    simp only [step] at h
    split_ifs at h
    cases h
    exact ⟨hq, hd, fun _ hj => hj⟩
  | add item =>
    simp only [step] at h
    cases h
    have hne : item ≠ obj := fun he => ha (by rw [he])
    have := Queue.Add_absent s.wq obj item hne hq hd
    exact ⟨this.1, this.2, fun _ hj => hj⟩
  | barrierStop =>
    simp only [step, stepBarrierStop] at h
    cases hr : s.run with
    | barrier =>
      simp only [hr] at h
      split_ifs at h
      cases h
      exact ⟨hq, hd, fun _ hj => hj⟩
    | spawn i => simp [hr] at h
    | awaitStop => simp [hr] at h
    | returned e => simp [hr] at h
  | run =>
    simp only [step, stepRun] at h
    cases hr : s.run with
    | barrier =>
      simp only [hr] at h
      split_ifs at h
      cases h
      exact ⟨hq, hd, fun _ hj => hj⟩
    | spawn i =>
      simp only [hr] at h
      split_ifs at h
      · cases h
        refine ⟨hq, hd, ?_⟩
        intro j hj
        dsimp only at hj
        by_cases hlt : j < s.workers.length
        · rwa [List.getElem?_append_left hlt] at hj
        · rw [List.getElem?_append_right (Nat.le_of_not_lt hlt)] at hj
          cases hk : j - s.workers.length with
          | zero => simp [hk] at hj
          | succ k => simp [hk] at hj
      · cases h
        exact ⟨hq, hd, fun _ hj => hj⟩
    | awaitStop =>
      simp only [hr] at h
      split_ifs at h
      cases h
      exact ⟨hq, hd, fun _ hj => hj⟩
    | returned e => simp [hr] at h
  | worker i =>
    simp only [step] at h
    cases hg : s.workers[i]? with
    | none => simp [hg] at h
    | some pc =>
      simp only [hg] at h
      cases hw : stepWorker lister s pc with
      | none => simp [hw] at h
      | some r =>
        obtain ⟨pc', q, t⟩ := r
        simp only [hw] at h
        cases h
        have hs := stepWorker_absent lister s pc pc' q t obj hq hd hw
        refine ⟨hs.1, hs.2.1, ?_⟩
        intro j hj
        dsimp only at hj
        by_cases hij : i = j
        · subst hij
          have hlt : i < s.workers.length := by
            by_contra hge
            rw [List.getElem?_eq_none (Nat.le_of_not_lt hge)] at hg
            cases hg
          rw [List.getElem?_set_self hlt] at hj
          cases hj
          exact absurd rfl hs.2.2
        · rwa [List.getElem?_set_ne hij] at hj

/-- The same along a schedule without an `Add` of the item. -/
theorem exec_absent (lister : Lister) (threadiness : Int) (sched : List Action)
    (s s' : Sys) (obj : Item) (ha : Action.add obj ∉ sched)
    (hq : obj ∉ s.wq.queue) (hd : obj ∉ s.wq.dirty)
    (h : exec lister threadiness sched s = some s') :
    obj ∉ s'.wq.queue ∧ obj ∉ s'.wq.dirty := by
  induction sched generalizing s with
  | nil =>
    simp only [exec, Option.some.injEq] at h
    exact h ▸ ⟨hq, hd⟩
  | cons a as ih =>
    simp only [List.mem_cons, not_or] at ha
    simp only [exec] at h
    cases hs : step lister threadiness a s with
    | none => simp [hs] at h
    | some s1 =>
      simp only [hs] at h
      have h1 := step_absent lister threadiness a s s1 obj (fun he => ha.1 he.symm) hq hd hs
      exact ih s1 ha.2 h1.1 h1.2.1 h

/-! ## Theorems -/

/-- C1, as found in the code: when `syncHandler` returns an error for a dequeued
key, `processNextWorkItem` does not add the key back.  Its queue operations are
`Get` followed by `Done` of the key, with no `AddRateLimited` (and no `Forget`);
the wrapped error goes to `HandleError` and the call returns true.  In the
running system, when nothing else has added the key while it was handled, the
move of the worker that ends the failed call leaves the pending items and the
dirty set as they were and records no `AddRateLimited`; from then on, as long
as no `Add` of the key happens, the key is never pending and no `Get` hands it
to a worker. -/
theorem processNextWorkItem_error_not_requeued (lister : Lister) (key : String) (err : Err)
    (t : List Event) (h : syncHandler lister key = (some err, t)) :
    (processNextWorkItem lister (.str key, false)).1 = true ∧
    queueOps (processNextWorkItem lister (.str key, false)).2 = [.Get, .Done (.str key)] ∧
    (∀ o, Event.AddRateLimited o ∉ (processNextWorkItem lister (.str key, false)).2) ∧
    (reported (processNextWorkItem lister (.str key, false)).2).getLast? =
      some (.errorSyncing key err) ∧
    (∀ (threadiness : Int) (s : Sys) (i : Nat),
      s.workers[i]? = some (WorkerPc.handling (.str key)) →
      Item.str key ∉ s.wq.queue → Item.str key ∉ s.wq.dirty →
      ∃ s', step lister threadiness (.worker i) s = some s' ∧
        s'.workers = s.workers.set i .get ∧
        s'.wq.queue = s.wq.queue ∧ s'.wq.dirty = s.wq.dirty ∧
        (∀ o, Event.AddRateLimited o ∈ s'.trace → Event.AddRateLimited o ∈ s.trace) ∧
        ∀ (sched : List Action) (a : Action) (s1 s2 : Sys),
          Action.add (.str key) ∉ sched → a ≠ .add (.str key) →
          exec lister threadiness sched s' = some s1 →
          step lister threadiness a s1 = some s2 →
          Item.str key ∉ s2.wq.queue ∧ Item.str key ∉ s2.wq.dirty ∧
          ∀ j : Nat, s2.workers[j]? = some (WorkerPc.handling (.str key)) →
            s1.workers[j]? = some (WorkerPc.handling (.str key))) := by
  have hshape : ∃ ns name, t = [.syncHandler key, .HandleError (.failedToGet ns name)] := by
    rcases syncHandler_cases lister key with h1 | h1 | ⟨ns, name, msg, -, -, h1⟩
    · rw [h1] at h; simp at h
    · rw [h1] at h; simp at h
    · rw [h1] at h
      exact ⟨ns, name, (Prod.mk.inj h).2.symm⟩
  obtain ⟨ns, name, ht⟩ := hshape
  subst ht
  have hitem : handleItem lister (.str key) =
      (some (.errorSyncing key err),
        [.syncHandler key, .HandleError (.failedToGet ns name)] ++ [.Done (.str key)]) := by
    simp [handleItem, h]
  refine ⟨?_, ?_, ?_, ?_, ?_⟩
  · rw [processNextWorkItem_of_error lister key err _ h]
  · rw [processNextWorkItem_of_error lister key err _ h]
    simp [queueOps, Event.isQueueOp]
  · rw [processNextWorkItem_of_error lister key err _ h]
    simp
  · rw [processNextWorkItem_of_error lister key err _ h]
    simp [reported]
  · intro threadiness s i hi hq hd
    have hfold := foldl_apply_handleItem lister (.str key) s.wq
    rw [hitem] at hfold
    simp only at hfold
    have hdone : s.wq.Done (.str key) =
        { s.wq with processing := s.wq.processing.erase (.str key) } := by
      simp [Queue.Done, hd]
    refine ⟨{ s with
        workers := s.workers.set i .get,
        wq := { s.wq with processing := s.wq.processing.erase (.str key) },
        trace := s.trace ++
          ([.syncHandler key, .HandleError (.failedToGet ns name)] ++ [.Done (.str key)]) ++
          [.HandleError (.errorSyncing key err)] }, ?_, rfl, rfl, rfl, ?_, ?_⟩
    · simp only [step, hi, stepWorker, hitem, hfold, hdone]
    · intro o ho
      simpa using ho
    · intro sched a s1 s2 hsched ha hexec hstep
      have h1 : Item.str key ∉ s1.wq.queue ∧ Item.str key ∉ s1.wq.dirty := by
        refine exec_absent lister threadiness sched _ s1 (.str key) hsched ?_ ?_ hexec
        · exact hq
        · exact hd
      exact step_absent lister threadiness a s1 s2 (.str key) ha h1.1 h1.2 hstep

theorem processNextWorkItem_error_not_requeued_witness :
    syncHandler brokenLister "ns/a" =
      (some (.lister "cache unavailable"),
        [.syncHandler "ns/a", .HandleError (.failedToGet "ns" "a")]) ∧
    queueOps (processNextWorkItem brokenLister (.str "ns/a", false)).2 =
      [.Get, .Done (.str "ns/a")] ∧
    exec brokenLister 2
        [.cacheSync, .run, .run, .run, .run, .worker 0, .worker 0, .closeStop]
        (Sys.init [.str "ns/a"]) = some Sys.stoppedMidSync ∧
    Sys.stoppedMidSync.workers[0]? = some (WorkerPc.handling (.str "ns/a")) ∧
    Item.str "ns/a" ∉ Sys.stoppedMidSync.wq.queue ∧
    Item.str "ns/a" ∉ Sys.stoppedMidSync.wq.dirty ∧
    exec brokenLister 2 [.worker 0, .worker 0] Sys.stoppedMidSync = none ∧
    (exec brokenLister 2 [.worker 0, .add (.str "ns/a"), .worker 0] Sys.stoppedMidSync).map
      (fun s => s.workers) = some [.handling (.str "ns/a"), .untilCheck] ∧
    ∃ s', step brokenLister 2 (.worker 0) Sys.stoppedMidSync = some s' ∧
      s'.workers = Sys.stoppedMidSync.workers.set 0 .get ∧
      s'.wq.queue = Sys.stoppedMidSync.wq.queue ∧
      s'.wq.dirty = Sys.stoppedMidSync.wq.dirty ∧
      (∀ o, Event.AddRateLimited o ∈ s'.trace →
        Event.AddRateLimited o ∈ Sys.stoppedMidSync.trace) ∧
      ∀ (sched : List Action) (a : Action) (s1 s2 : Sys),
        Action.add (.str "ns/a") ∉ sched → a ≠ .add (.str "ns/a") →
        exec brokenLister 2 sched s' = some s1 →
        step brokenLister 2 a s1 = some s2 →
        Item.str "ns/a" ∉ s2.wq.queue ∧ Item.str "ns/a" ∉ s2.wq.dirty ∧
        ∀ j : Nat, s2.workers[j]? = some (WorkerPc.handling (.str "ns/a")) →
          s1.workers[j]? = some (WorkerPc.handling (.str "ns/a")) :=
  ⟨by decide,
    (processNextWorkItem_error_not_requeued brokenLister "ns/a" (.lister "cache unavailable")
      [.syncHandler "ns/a", .HandleError (.failedToGet "ns" "a")] (by decide)).2.1,
    by decide, by decide, by decide, by decide, by decide, by decide,
    (processNextWorkItem_error_not_requeued brokenLister "ns/a" (.lister "cache unavailable")
      [.syncHandler "ns/a", .HandleError (.failedToGet "ns" "a")] (by decide)).2.2.2.2
      2 Sys.stoppedMidSync 0 (by decide) (by decide) (by decide)⟩

/-- C1, counterexample: with a lister that fails, `syncHandler` returns an error
for the dequeued key `ns/a` and the trace of `processNextWorkItem` contains no
`AddRateLimited` of that key. -/
theorem processNextWorkItem_requeue_counterexample :
    (syncHandler brokenLister "ns/a").1 ≠ none ∧
    Event.AddRateLimited (.str "ns/a") ∉
      (processNextWorkItem brokenLister (.str "ns/a", false)).2 := by
  decide

/-- C2: for an update notification carrying the CronTabs `old` and `new`, the
key of `new` is derivable, and `UpdateFunc` performs no queue operation at all
when the two resource versions are equal and exactly one `AddRateLimited`, of
the key computed from `new`, when they differ; so a queue operation happens if
and only if the resource versions differ. -/
theorem UpdateFunc_enqueues_iff_version_changed (old new : CronTab) :
    ∃ key, MetaNamespaceKeyFunc (.cronTab new) = .ok key ∧
      (old.ResourceVersion = new.ResourceVersion →
        UpdateFunc (.cronTab old) (.cronTab new) = some []) ∧
      (old.ResourceVersion ≠ new.ResourceVersion →
        UpdateFunc (.cronTab old) (.cronTab new) = some [.AddRateLimited (.str key)]) ∧
      ((∃ t, UpdateFunc (.cronTab old) (.cronTab new) = some t ∧ queueOps t ≠ []) ↔
        old.ResourceVersion ≠ new.ResourceVersion) := by
  obtain ⟨key, hkey⟩ : ∃ key, MetaNamespaceKeyFunc (.cronTab new) = .ok key :=
    ⟨_, MetaNamespaceKeyFunc_cronTab new⟩
  refine ⟨key, hkey, ?_, ?_, ?_⟩
  · intro h
    simp [UpdateFunc, h]
  · intro h
    simp [UpdateFunc, h, enqueueCronTab, hkey]
  · by_cases h : old.ResourceVersion = new.ResourceVersion
    · simp [UpdateFunc, h, queueOps]
    · simp [UpdateFunc, h, enqueueCronTab, hkey, queueOps, Event.isQueueOp]

theorem UpdateFunc_enqueues_iff_version_changed_witness :
    UpdateFunc (.cronTab ⟨"ns", "a", "41"⟩) (.cronTab ⟨"ns", "a", "41"⟩) = some [] ∧
    UpdateFunc (.cronTab ⟨"ns", "old", "41"⟩) (.cronTab ⟨"ns", "a", "42"⟩) =
      some [.AddRateLimited (.str "ns/a")] ∧
    ∃ key, MetaNamespaceKeyFunc (.cronTab ⟨"ns", "a", "42"⟩) = .ok key ∧
      (("41" : String) = "42" →
        UpdateFunc (.cronTab ⟨"ns", "old", "41"⟩) (.cronTab ⟨"ns", "a", "42"⟩) = some []) ∧
      (("41" : String) ≠ "42" →
        UpdateFunc (.cronTab ⟨"ns", "old", "41"⟩) (.cronTab ⟨"ns", "a", "42"⟩) =
          some [.AddRateLimited (.str key)]) ∧
      ((∃ t, UpdateFunc (.cronTab ⟨"ns", "old", "41"⟩) (.cronTab ⟨"ns", "a", "42"⟩) = some t ∧
          queueOps t ≠ []) ↔ ("41" : String) ≠ "42") :=
  ⟨by decide, by decide,
    UpdateFunc_enqueues_iff_version_changed ⟨"ns", "old", "41"⟩ ⟨"ns", "a", "42"⟩⟩

/-- C3: for a dequeued string key, `Forget` of the key is called when
`syncHandler` returns nil, which resets the attempt counter of the key; when
`syncHandler` returns an error no `Forget` is called at all and the attempt
counter of the key is what it was before the call. -/
theorem processNextWorkItem_forget_iff_success (lister : Lister) (key : String) (n : Nat) :
    ((syncHandler lister key).1 = none →
      queueOps (processNextWorkItem lister (.str key, false)).2 =
        [.Get, .Forget (.str key), .Done (.str key)] ∧
      numRequeues (.str key) (processNextWorkItem lister (.str key, false)).2 n = 0) ∧
    ((syncHandler lister key).1 ≠ none →
      (∀ o, Event.Forget o ∉ (processNextWorkItem lister (.str key, false)).2) ∧
      numRequeues (.str key) (processNextWorkItem lister (.str key, false)).2 n = n) := by
  rcases syncHandler_cases lister key with h | h | ⟨ns, name, msg, -, -, h⟩
  · rw [processNextWorkItem_of_ok lister key _ h]
    simp [h, queueOps, Event.isQueueOp, numRequeues]
  · rw [processNextWorkItem_of_ok lister key _ h]
    simp [h, queueOps, Event.isQueueOp, numRequeues]
  · rw [processNextWorkItem_of_error lister key _ _ h]
    simp [h, numRequeues]

theorem processNextWorkItem_forget_iff_success_witness :
    (syncHandler emptyLister "ns/a").1 = none ∧
    (syncHandler brokenLister "ns/a").1 ≠ none ∧
    numRequeues (.str "ns/a") (processNextWorkItem emptyLister (.str "ns/a", false)).2 3 = 0 ∧
    numRequeues (.str "ns/a") (processNextWorkItem brokenLister (.str "ns/a", false)).2 3 = 3 :=
  ⟨by decide, by decide,
    ((processNextWorkItem_forget_iff_success emptyLister "ns/a" 3).1 (by decide)).2,
    ((processNextWorkItem_forget_iff_success brokenLister "ns/a" 3).2 (by decide)).2⟩

/-- C4: when `Get` did not report shutdown, `Done` is called exactly once in the
call of `processNextWorkItem`, with the item obtained, and it is the last queue
operation of the call, whether the item is a string whose handler succeeds or
fails or is not a string; when `Get` reports shutdown `Done` is not called. -/
theorem processNextWorkItem_done_exactly_once (lister : Lister) (obj : Item) :
    doneCalls (processNextWorkItem lister (obj, false)).2 = [obj] ∧
    (queueOps (processNextWorkItem lister (obj, false)).2).getLast? = some (.Done obj) ∧
    doneCalls (processNextWorkItem lister (obj, true)).2 = [] := by
  refine ⟨doneCalls_processNextWorkItem lister obj, ?_, ?_⟩
  · cases obj with
    | other tag => simp [processNextWorkItem, handleItem, queueOps, Event.isQueueOp]
    | str key =>
      rcases syncHandler_cases lister key with h | h | ⟨ns, name, msg, -, -, h⟩
      · rw [processNextWorkItem_of_ok lister key _ h]; simp [queueOps, Event.isQueueOp]
      · rw [processNextWorkItem_of_ok lister key _ h]; simp [queueOps, Event.isQueueOp]
      · rw [processNextWorkItem_of_error lister key _ _ h]; simp [queueOps, Event.isQueueOp]
  · simp [processNextWorkItem, doneCalls]

/-- C5: `processNextWorkItem` returns false exactly when `Get` reports shutdown,
and then `syncHandler` is not invoked; so `runWorker`, given items until a
shutdown, processes every one of them in turn whatever their handlers return and
ends only at the shutdown. -/
theorem processNextWorkItem_false_iff_shutdown (lister : Lister) :
    (∀ got : Item × Bool, (processNextWorkItem lister got).1 = false ↔ got.2 = true) ∧
    (∀ obj : Item, syncCalls (processNextWorkItem lister (obj, true)).2 = []) ∧
    (∀ (gots rest : List (Item × Bool)) (last : Item), (∀ g ∈ gots, g.2 = false) →
      runWorker lister (gots ++ (last, true) :: rest) =
        (true, (gots.map fun g => (processNextWorkItem lister g).2).flatten ++ [.Get])) := by
  have hret : ∀ got : Item × Bool, (processNextWorkItem lister got).1 = !got.2 := by
    intro got
    unfold processNextWorkItem
    cases got.2 with
    | true => rfl
    | false =>
      simp only [Bool.false_eq_true, if_false]
      split <;> rfl
  refine ⟨?_, ?_, ?_⟩
  · intro got
    rw [hret]
    cases got.2 <;> simp
  · intro obj
    simp [processNextWorkItem, syncCalls]
  · intro gots rest last hg
    induction gots with
    | nil => simp [runWorker, processNextWorkItem]
    | cons g gs ih =>
      have hg1 : g.2 = false := hg g (List.mem_cons_self _ _)
      have ih1 := ih (fun x hx => hg x (List.mem_cons_of_mem _ hx))
      have h1 : (processNextWorkItem lister g).1 = true := by rw [hret, hg1]; rfl
      rw [List.cons_append, runWorker_of_continue lister g _ h1, ih1]
      simp

theorem processNextWorkItem_false_iff_shutdown_witness :
    (∀ g ∈ [((Item.str "ns/a"), false), (Item.other 7, false), (Item.str "ns/b", false)],
      g.2 = false) ∧
    runWorker brokenLister
        ([((Item.str "ns/a"), false), (Item.other 7, false), (Item.str "ns/b", false)] ++
          (Item.other 0, true) :: [(Item.str "ns/c", false)]) =
      (true,
        ([((Item.str "ns/a"), false), (Item.other 7, false), (Item.str "ns/b", false)].map
          fun g => (processNextWorkItem brokenLister g).2).flatten ++ [.Get]) ∧
    syncCalls (runWorker brokenLister
        [((Item.str "ns/a"), false), (Item.other 7, false), (Item.str "ns/b", false),
          (Item.other 0, true), (Item.str "ns/c", false)]).2 = ["ns/a", "ns/b"] :=
  ⟨by decide,
    (processNextWorkItem_false_iff_shutdown brokenLister).2.2 _ _ _ (by decide),
    by decide⟩

/-- C6: when the key splits into `ns` and `name` and the lister answers
not-found for them, `syncHandler` returns nil and `processNextWorkItem` forgets
the key, marks it done and reports no error; every key written `ns/name` with
no slash inside either part splits this way. -/
theorem syncHandler_notFound_is_success (lister : Lister) :
    (∀ key ns name, SplitMetaNamespaceKey key = .ok (ns, name) →
      lister ns name = .notFound →
      syncHandler lister key = (none, [.syncHandler key]) ∧
      processNextWorkItem lister (.str key, false) =
        (true, [.Get, .syncHandler key, .Forget (.str key), .Done (.str key)]) ∧
      reported (processNextWorkItem lister (.str key, false)).2 = []) ∧
    (∀ ns name : String, '/' ∉ ns.data → '/' ∉ name.data →
      lister ns name = .notFound →
      (syncHandler lister (ns ++ "/" ++ name)).1 = none ∧
      queueOps (processNextWorkItem lister (.str (ns ++ "/" ++ name), false)).2 =
        [.Get, .Forget (.str (ns ++ "/" ++ name)), .Done (.str (ns ++ "/" ++ name))] ∧
      reported (processNextWorkItem lister (.str (ns ++ "/" ++ name), false)).2 = []) := by
  have main : ∀ key ns name, SplitMetaNamespaceKey key = .ok (ns, name) →
      lister ns name = .notFound → syncHandler lister key = (none, [.syncHandler key]) := by
    intro key ns name hs hl
    simp [syncHandler, hs, hl]
  constructor
  · intro key ns name hs hl
    have h := main key ns name hs hl
    refine ⟨h, ?_, ?_⟩
    · rw [processNextWorkItem_of_ok lister key _ h]; rfl
    · rw [processNextWorkItem_of_ok lister key _ h]; rfl
  · intro ns name hns hname hl
    have h := main _ ns name (SplitMetaNamespaceKey_join ns name hns hname) hl
    rw [processNextWorkItem_of_ok lister _ _ h, h]
    simp [queueOps, Event.isQueueOp, reported]

theorem syncHandler_notFound_is_success_witness :
    SplitMetaNamespaceKey "ns/a" = .ok ("ns", "a") ∧ emptyLister "ns" "a" = .notFound ∧
    processNextWorkItem emptyLister (.str "ns/a", false) =
      (true, [.Get, .syncHandler "ns/a", .Forget (.str "ns/a"), .Done (.str "ns/a")]) :=
  ⟨by decide, rfl,
    ((syncHandler_notFound_is_success emptyLister).1 "ns/a" "ns" "a" (by decide) rfl).2.1⟩

/-- C9: when `MetaNamespaceKeyFunc` gives a key, the add handler performs exactly
one queue operation, `AddRateLimited` of that key, and nothing else; when it
fails the handler performs no queue operation and only reports the error.  For
a CronTab the key is `namespace/name`, or `name` when the namespace is empty. -/
theorem enqueueCronTab_adds_key_or_nothing (obj : Obj) :
    (∀ key, MetaNamespaceKeyFunc obj = .ok key →
      AddFunc obj = [.AddRateLimited (.str key)]) ∧
    (∀ err, MetaNamespaceKeyFunc obj = .error err →
      AddFunc obj = [.HandleError err] ∧ queueOps (AddFunc obj) = []) ∧
    (∀ c, obj = .cronTab c →
      MetaNamespaceKeyFunc obj =
        .ok (if c.Namespace = "" then c.Name else c.Namespace ++ "/" ++ c.Name)) := by
  refine ⟨?_, ?_, ?_⟩
  · intro key h
    simp [AddFunc, enqueueCronTab, h]
  · intro err h
    simp [AddFunc, enqueueCronTab, h, queueOps, Event.isQueueOp]
  · intro c h
    rw [h, MetaNamespaceKeyFunc_cronTab]

theorem enqueueCronTab_adds_key_or_nothing_witness :
    MetaNamespaceKeyFunc (.cronTab ⟨"ns", "a", "1"⟩) = .ok "ns/a" ∧
    AddFunc (.cronTab ⟨"ns", "a", "1"⟩) = [.AddRateLimited (.str "ns/a")] ∧
    MetaNamespaceKeyFunc (.cronTab ⟨"", "a", "1"⟩) = .ok "a" ∧
    AddFunc (.cronTab ⟨"", "a", "1"⟩) = [.AddRateLimited (.str "a")] ∧
    MetaNamespaceKeyFunc (.other 1) = .error .objectHasNoMeta ∧
    queueOps (AddFunc (.other 1)) = [] :=
  ⟨by decide,
    (enqueueCronTab_adds_key_or_nothing (.cronTab ⟨"ns", "a", "1"⟩)).1 "ns/a" (by decide),
    by decide,
    (enqueueCronTab_adds_key_or_nothing (.cronTab ⟨"", "a", "1"⟩)).1 "a" (by decide),
    by decide,
    ((enqueueCronTab_adds_key_or_nothing (.other 1)).2.1 .objectHasNoMeta (by decide)).2⟩

/-- C10: for every delete notification, the final state of a CronTab or a
tombstone, the delete handler derives a key and performs exactly one
`AddRateLimited` of it and nothing else; for a tombstone the key is the stored
key whatever the tombstone holds besides, for a CronTab it is the key of
`MetaNamespaceKeyFunc`. -/
theorem enqueueCronTabForDelete_always_adds (obj : Obj)
    (h : isDeleteNotification obj = true) :
    ∃ key, DeletionHandlingMetaNamespaceKeyFunc obj = .ok key ∧
      DeleteFunc obj = [.AddRateLimited (.str key)] ∧
      (∀ stored last, obj = .tombstone stored last → key = stored) ∧
      (∀ c, obj = .cronTab c → MetaNamespaceKeyFunc obj = .ok key) := by
  cases obj with
  | tombstone stored last =>
    refine ⟨stored, rfl, ?_, ?_, ?_⟩
    · simp [DeleteFunc, enqueueCronTabForDelete, DeletionHandlingMetaNamespaceKeyFunc]
    · intro k l hk
      cases hk
      rfl
    · intro c hc
      cases hc
  | cronTab c =>
    have hk := MetaNamespaceKeyFunc_cronTab c
    refine ⟨if c.Namespace = "" then c.Name else c.Namespace ++ "/" ++ c.Name, ?_, ?_, ?_, ?_⟩
    · simpa [DeletionHandlingMetaNamespaceKeyFunc] using hk
    · simp [DeleteFunc, enqueueCronTabForDelete, DeletionHandlingMetaNamespaceKeyFunc, hk]
    · intro k l hk
      cases hk
    · intro c2 hc
      cases hc
      exact hk
  | explicitKey k => simp [isDeleteNotification] at h
  | other tag => simp [isDeleteNotification] at h

theorem enqueueCronTabForDelete_always_adds_witness :
    isDeleteNotification (.tombstone "ns/a" none) = true ∧
    DeleteFunc (.tombstone "ns/a" none) = [.AddRateLimited (.str "ns/a")] ∧
    ∃ key, DeletionHandlingMetaNamespaceKeyFunc (.tombstone "ns/a" none) = .ok key ∧
      DeleteFunc (.tombstone "ns/a" none) = [.AddRateLimited (.str key)] ∧
      (∀ stored last, Obj.tombstone "ns/a" none = .tombstone stored last → key = stored) ∧
      (∀ c, Obj.tombstone "ns/a" none = .cronTab c →
        MetaNamespaceKeyFunc (.tombstone "ns/a" none) = .ok key) :=
  ⟨by decide, by decide,
    enqueueCronTabForDelete_always_adds (.tombstone "ns/a" none) (by decide)⟩

/-- C7: `Run` returns an error exactly when the cache-sync barrier reports
failure; it then starts no worker and only shuts the queue down.  Otherwise it
starts `threadiness` workers (none when `threadiness` is not positive), waits
for the stop signal, shuts the queue down and returns nil.  In every
interleaving with the workers: once `Run` has returned an error no worker
exists and `syncHandler` has not been invoked, and once it has returned nil the
stop signal has fired and the workers started are `threadiness` many. -/
theorem Run_error_iff_cache_sync_failed (threadiness : Int) :
    (∀ cacheSynced, (Run threadiness cacheSynced).1 ≠ none ↔ cacheSynced = false) ∧
    Run threadiness false = (some .failedToSync, [.ShutDown]) ∧
    Run threadiness true =
      (none, List.replicate threadiness.toNat .goWorker ++ [.awaitStop, .ShutDown]) ∧
    (0 ≤ threadiness →
      (((Run threadiness true).2.count .goWorker : Nat) : Int) = threadiness) ∧
    (∀ (lister : Lister) (pending : List Item) (sched : List Action) (s : Sys),
      exec lister threadiness sched (Sys.init pending) = some s →
      (∀ e, s.run = .returned (some e) →
        e = .failedToSync ∧ s.workers = [] ∧ syncCalls s.trace = [] ∧ s.stop = true) ∧
      (s.run = .returned none →
        s.workers.length = threadiness.toNat ∧ s.stop = true)) := by
  refine ⟨?_, rfl, rfl, ?_, ?_⟩
  · intro cacheSynced
    cases cacheSynced <;> simp [Run]
  · intro h
    simp [Run, List.count_replicate_self, Int.toNat_of_nonneg h]
  · intro lister pending sched s h
    have hinv := exec_RunInv lister threadiness sched _ s (RunInv_init threadiness pending) h
    constructor
    · intro e he
      simpa [RunInv, he] using hinv
    · intro he
      simpa [RunInv, he] using hinv

theorem Run_error_iff_cache_sync_failed_witness :
    (0 : Int) ≤ 2 ∧
    (((Run 2 true).2.count .goWorker : Nat) : Int) = 2 ∧
    exec brokenLister 2 [.closeStop, .barrierStop, .worker 0] (Sys.init [.str "ns/a"]) = none ∧
    exec brokenLister 2 [.closeStop, .barrierStop] (Sys.init [.str "ns/a"]) =
      some { stop := true, hasSynced := false, run := .returned (some .failedToSync),
             workers := [],
             wq := { queue := [.str "ns/a"], dirty := [.str "ns/a"], processing := [],
                     shuttingDown := true },
             trace := [.ShutDown] } ∧
    (Err.failedToSync = .failedToSync ∧ ([] : List WorkerPc) = [] ∧
      syncCalls [.ShutDown] = [] ∧ true = true) :=
  ⟨by decide,
    (Run_error_iff_cache_sync_failed 2).2.2.2.1 (by decide),
    by decide, by decide,
    ((Run_error_iff_cache_sync_failed 2).2.2.2.2 brokenLister [.str "ns/a"]
      [.closeStop, .barrierStop]
      { stop := true, hasSynced := false, run := .returned (some .failedToSync),
        workers := [],
        wq := { queue := [.str "ns/a"], dirty := [.str "ns/a"], processing := [],
                shuttingDown := true },
        trace := [.ShutDown] } (by decide)).1 .failedToSync rfl⟩

/-- C8, as found in the code: once the stop signal has fired, `Run` shuts the
queue down and returns nil in its next move, without waiting for any worker
and without interrupting one: the worker states, the processing set and the
`Done` calls made so far are what they were.  A worker that is in its handler
can still make its move after `Run` has returned; that move completes the call
of `processNextWorkItem` for its item, running `Done` for it exactly once. -/
theorem Run_returns_without_waiting (lister : Lister) (threadiness : Int) (s : Sys)
    (hrun : s.run = .awaitStop) (hstop : s.stop = true) :
    ∃ s', step lister threadiness .run s = some s' ∧
      s'.run = .returned none ∧
      s'.workers = s.workers ∧
      s'.wq.processing = s.wq.processing ∧
      s'.wq.shuttingDown = true ∧
      doneCalls s'.trace = doneCalls s.trace ∧
      ∀ i obj, s'.workers[i]? = some (.handling obj) →
        ∃ s'' t, step lister threadiness (.worker i) s' = some s'' ∧
          s''.run = .returned none ∧
          s''.workers = s'.workers.set i .get ∧
          s''.trace = s'.trace ++ t ∧
          .Get :: t = (processNextWorkItem lister (obj, false)).2 ∧
          doneCalls t = [obj] := by
  refine ⟨{ s with run := .returned none, wq := s.wq.ShutDown,
                   trace := s.trace ++ [.ShutDown] }, ?_, rfl, rfl, rfl, rfl, ?_, ?_⟩
  · simp [step, stepRun, hrun, hstop]
  · simp [doneCalls_append, doneCalls]
  · intro i obj hi
    have hdone : ∀ t, Event.Get :: t = (processNextWorkItem lister (obj, false)).2 →
        doneCalls t = [obj] := by
      intro t ht
      have h4 := doneCalls_processNextWorkItem lister obj
      rw [← ht] at h4
      simpa [doneCalls] using h4
    dsimp only at hi ⊢
    cases hh : handleItem lister obj with
    | mk err t =>
      cases err with
      | none =>
        refine ⟨{ s with run := .returned none, workers := s.workers.set i .get,
                         wq := t.foldl Queue.apply s.wq.ShutDown,
                         trace := s.trace ++ [.ShutDown] ++ t }, t, ?_, rfl, rfl, rfl, ?_, ?_⟩
        · simp only [step, hi, stepWorker, hh]
        · simp [processNextWorkItem, hh]
        · exact hdone t (by simp [processNextWorkItem, hh])
      | some e =>
        refine ⟨{ s with run := .returned none, workers := s.workers.set i .get,
                         wq := t.foldl Queue.apply s.wq.ShutDown,
                         trace := s.trace ++ [.ShutDown] ++ t ++ [.HandleError e] },
          t ++ [.HandleError e], ?_, rfl, rfl, ?_, ?_, ?_⟩
        · simp only [step, hi, stepWorker, hh]
        · simp
        · simp [processNextWorkItem, hh]
        · exact hdone _ (by simp [processNextWorkItem, hh])

theorem Run_returns_without_waiting_witness :
    Sys.stoppedMidSync.run = .awaitStop ∧ Sys.stoppedMidSync.stop = true ∧
    exec emptyLister 2
        [.cacheSync, .run, .run, .run, .run, .worker 0, .worker 0, .closeStop]
        (Sys.init [.str "ns/a"]) = some Sys.stoppedMidSync ∧
    ∃ s', step emptyLister 2 .run Sys.stoppedMidSync = some s' ∧
      s'.run = .returned none ∧
      s'.workers = Sys.stoppedMidSync.workers ∧
      s'.wq.processing = Sys.stoppedMidSync.wq.processing ∧
      s'.wq.shuttingDown = true ∧
      doneCalls s'.trace = doneCalls Sys.stoppedMidSync.trace ∧
      ∀ i obj, s'.workers[i]? = some (.handling obj) →
        ∃ s'' t, step emptyLister 2 (.worker i) s' = some s'' ∧
          s''.run = .returned none ∧
          s''.workers = s'.workers.set i .get ∧
          s''.trace = s'.trace ++ t ∧
          .Get :: t = (processNextWorkItem emptyLister (obj, false)).2 ∧
          doneCalls t = [obj] :=
  ⟨rfl, rfl, by decide, Run_returns_without_waiting emptyLister 2 Sys.stoppedMidSync rfl rfl⟩

/-- C8, counterexample: in `Run(2, stopCh)` with `ns/a` enqueued, a worker takes
`ns/a` and is in its handler when the stop signal fires; the next move of `Run`
returns nil while that worker is still in the handler, `Done` has not been
called and no worker has exited. -/
theorem Run_returns_while_worker_in_handler :
    ∃ s, exec emptyLister 2
        [.cacheSync, .run, .run, .run, .run, .worker 0, .worker 0, .closeStop, .run]
        (Sys.init [.str "ns/a"]) = some s ∧
      s.run = .returned none ∧
      s.workers = [.handling (.str "ns/a"), .untilCheck] ∧
      Item.str "ns/a" ∈ s.wq.processing ∧
      doneCalls s.trace = [] := by
  refine ⟨{ stop := true, hasSynced := true, run := .returned none,
            workers := [.handling (.str "ns/a"), .untilCheck],
            wq := { queue := [], dirty := [], processing := [.str "ns/a"],
                    shuttingDown := true },
            trace := [.Get, .ShutDown] }, ?_, ?_, ?_, ?_, ?_⟩ <;>
    decide

end CronTabController
